import Mathlib

/-!
Verification of the `perturb_genes` routine from `notebooks/Task1.ipynb`
(in-silico gene perturbation on an annotated expression matrix).

The shallow embedding below translates the Python function into Lean:

* An `AnnData` value is the annotated expression matrix: `var_names` are the
  gene (column) labels, `X` the cells-by-genes table of counts, stored
  row-wise.  Numeric values are rationals (the counts are float-valued in the
  source; all arithmetic the routine performs on them is exact).
* `np.round` is round-half-to-even (`rint`).
* Python exceptions become an explicit result type `PResult`; the state of the
  caller's matrix after the call is threaded through explicitly, so in-place
  mutation (`copy=False`) and the copying mode (`copy=True`) are both visible.
* The scalar/sequence duck typing of the `target`/`factor` arguments becomes
  the input types `TargetInput`/`FactorInput`.  The source only normalizes
  `isinstance(target, str)` and `isinstance(factor, float)`; a bare Python
  `int` passed as `factor` is left unwrapped and the subsequent `len(factor)`
  raises a `TypeError`, which the embedding records as `PerturbError.typeError`.
-/

/-- numpy's `np.round` at `decimals=0`: round to the nearest integer,
ties to the even integer. -/
def rint (q : ℚ) : ℤ :=
  if q - (⌊q⌋ : ℚ) < 1 / 2 then ⌊q⌋
  else if 1 / 2 < q - (⌊q⌋ : ℚ) then ⌊q⌋ + 1
  else if ⌊q⌋ % 2 = 0 then ⌊q⌋ else ⌊q⌋ + 1

/-- The annotated data matrix: gene labels (`adata.var_names`) and the
cells-by-genes count table `adata.X`, stored as a list of rows. -/
structure AnnData where
  var_names : List String
  X : List (List ℚ)
deriving DecidableEq

/-- The `target` argument: one gene identifier (a Python `str`) or a sequence
of identifiers. -/
inductive TargetInput where
  | scalar (s : String)
  | list (l : List String)
deriving DecidableEq

/-- A scalar Python number passed as `factor`: a `float` or a bare `int`
(the source's `isinstance(factor, float)` check distinguishes the two). -/
inductive PyScalar where
  | pyFloat (q : ℚ)
  | pyInt (n : ℤ)
deriving DecidableEq

/-- The `factor` argument: one scalar number or a sequence of numbers. -/
inductive FactorInput where
  | scalar (x : PyScalar)
  | list (l : List ℚ)
deriving DecidableEq

/-- The errors `perturb_genes` can raise.  The four `ValueError`s of the
source are told apart by their messages; `unknownTarget` carries the data
interpolated into its message (the missing genes and
`adata.var_names[:3].tolist()`).  `typeError` is the `TypeError` raised by
`len(factor)` when a bare `int` was passed as `factor`. -/
inductive PerturbError where
  | lengthMismatch (numTargets numFactors : Nat)
  | unknownTarget (missing : List String) (exampleNames : List String)
  | negativeFactor
  | duplicateTarget
  | typeError
deriving DecidableEq

/-- Outcome of a call: an exception together with the state of the caller's
matrix at the moment it was raised, or normal termination with the final
state of the caller's matrix and the returned value (`None` or an `AnnData`). -/
inductive PResult where
  | err (e : PerturbError) (state : AnnData)
  | ok (state : AnnData) (ret : Option AnnData)
deriving DecidableEq

/-- `if isinstance(target, str): target = [target]`. -/
def normalizeTarget : TargetInput → List String
  | .scalar s => [s]
  | .list l => l

/-- `if isinstance(factor, float): factor = [factor]`.  A bare `int` is not a
`float`, so it is left as a scalar, on which `len` fails: `none`. -/
def normalizeFactor : FactorInput → Option (List ℚ)
  | .scalar (.pyFloat q) => some [q]
  | .scalar (.pyInt _) => none
  | .list l => some l

/-- First position of `name` in `l` (`none` when absent): how label-based
column selection `adata[:, target]` resolves a gene name against the request,
and positional alignment pairs it with its factor. -/
def findIndex (p : String → Bool) : List String → Option Nat
  | [] => none
  | a :: l => if p a then some 0 else (findIndex p l).map (· + 1)

/-- One entry of the working matrix after the perturbation: a cell's count
`x` for the gene `name` is scaled by the factor aligned with `name`'s
position in `target` and rounded (`X.multiply(factor)` then `np.round`);
a gene not in `target` keeps its count. -/
def perturbEntry (target : List String) (factor : List ℚ) (name : String) (x : ℚ) : ℚ :=
  match findIndex (fun t => decide (t = name)) target with
  | some j => ((rint (x * factor.getD j 0) : ℤ) : ℚ)
  | none => x

/-- The effect of
`adata[:, target].X = np.round(adata[:, target].X.multiply(factor)).tocsr()`
on the whole matrix: every row is updated entrywise, each gene's column
through `perturbEntry`. -/
def applyPerturb (adata : AnnData) (target : List String) (factor : List ℚ) : AnnData :=
  { adata with
    X := adata.X.map (fun row => List.zipWith (perturbEntry target factor) adata.var_names row) }

/-- The embedding of `perturb_genes(adata, target, factor, copy)`. -/
def perturb_genes (adata : AnnData) (targetIn : TargetInput) (factorIn : FactorInput)
    (copy : Bool) : PResult :=
  let target := normalizeTarget targetIn
  match normalizeFactor factorIn with
  | none => .err .typeError adata
  | some factor =>
    if target.length ≠ factor.length then
      .err (.lengthMismatch target.length factor.length) adata
    else if target.filter (fun t => decide (t ∉ adata.var_names)) ≠ [] then
      .err (.unknownTarget (target.filter (fun t => decide (t ∉ adata.var_names)))
        (adata.var_names.take 3)) adata
    else if factor.filter (fun f => decide (f < 0)) ≠ [] then
      .err .negativeFactor adata
    else if target.length ≠ target.dedup.length then
      .err .duplicateTarget adata
    else
      let working := applyPerturb adata target factor
      if copy then .ok adata (some working) else .ok working none

/-- Entry of the matrix at cell `i`, gene column `c` (0 outside the table). -/
def entry (a : AnnData) (i c : Nat) : ℚ :=
  (a.X.getD i []).getD c 0

/-- The two-gene example matrix of the spec: genes `G1`, `G2` with initial
column values `[1, 13]` and `[0, 26]`. -/
def sampleM : AnnData :=
  { var_names := ["G1", "G2"], X := [[1, 13], [0, 26]] }

/-! ### Helper lemmas -/

lemma rint_zero : rint 0 = 0 := by norm_num [rint]

lemma rint_nonneg (q : ℚ) (hq : 0 ≤ q) : 0 ≤ rint q := by
  unfold rint
  have h0 : (0 : ℤ) ≤ ⌊q⌋ := Int.floor_nonneg.mpr hq
  split_ifs <;> omega

lemma rint_intCast (n : ℤ) : rint (n : ℚ) = n := by
  norm_num [rint]

lemma findIndex_lt_length (p : String → Bool) :
    ∀ (l : List String) (j : Nat), findIndex p l = some j → j < l.length
  | [], _, h => by simp [findIndex] at h
  | a :: l, j, h => by
    unfold findIndex at h
    by_cases hp : p a
    · simp [hp] at h
      simp only [List.length_cons]
      omega
    · simp [hp] at h
      obtain ⟨j', hj', rfl⟩ := h
      have := findIndex_lt_length p l j' hj'
      simp only [List.length_cons]
      omega

lemma findIndex_nodup :
    ∀ (l : List String) (j : Nat), l.Nodup → j < l.length →
      findIndex (fun t => decide (t = l.getD j "")) l = some j
  | _ :: _, 0, _, _ => by simp [findIndex]
  | a :: l, j + 1, hnd, hj => by
    have hj' : j < l.length := by simpa using Nat.lt_of_succ_lt_succ hj
    have hmem : l.getD j "" ∈ l := by
      rw [List.getD_eq_getElem?_getD, List.getElem?_eq_getElem hj']
      exact List.getElem_mem hj'
    have hne : ¬a = l.getD j "" := fun h => (List.nodup_cons.mp hnd).1 (h ▸ hmem)
    have ih := findIndex_nodup l j (List.nodup_cons.mp hnd).2 hj'
    rw [List.getD_cons_succ]
    unfold findIndex
    rw [if_neg (by simpa using hne), ih]
    rfl

lemma findIndex_not_mem :
    ∀ (l : List String) (v : String), v ∉ l → findIndex (fun t => decide (t = v)) l = none
  | [], _, _ => rfl
  | a :: l, v, h => by
    have ha : ¬a = v := fun e => h (e ▸ List.mem_cons_self a l)
    have ih := findIndex_not_mem l v (fun hm => h (List.mem_cons_of_mem a hm))
    simp [findIndex, ha, ih]

lemma getD_nonneg : ∀ (f : List ℚ), (∀ g ∈ f, 0 ≤ g) → ∀ j, 0 ≤ f.getD j 0
  | [], _, _ => le_refl 0
  | a :: f, h, 0 => h a (List.mem_cons_self a f)
  | a :: f, h, j + 1 => getD_nonneg f (fun g hg => h g (List.mem_cons_of_mem a hg)) j

lemma zipWith_getD (p : String → ℚ → ℚ) :
    ∀ (names : List String) (row : List ℚ) (c : Nat),
      c < names.length → c < row.length →
      (List.zipWith p names row).getD c 0 = p (names.getD c "") (row.getD c 0)
  | [], _, c, h1, _ => absurd h1 (Nat.not_lt_zero c)
  | _ :: _, [], c, _, h2 => absurd h2 (Nat.not_lt_zero c)
  | _ :: _, _ :: _, 0, _, _ => rfl
  | _ :: names, _ :: row, c + 1, h1, h2 =>
    zipWith_getD p names row c (Nat.lt_of_succ_lt_succ h1) (Nat.lt_of_succ_lt_succ h2)

lemma mem_zipWith_cases {p : String → ℚ → ℚ} :
    ∀ {names : List String} {row : List ℚ} {x : ℚ},
      x ∈ List.zipWith p names row → ∃ a b, a ∈ names ∧ b ∈ row ∧ x = p a b
  | [], _, _, h => by simp at h
  | _ :: _, [], _, h => by simp at h
  | a :: names, b :: row, x, h => by
    rcases List.mem_cons.mp h with h | h
    · exact ⟨a, b, List.mem_cons_self a names, List.mem_cons_self b row, h⟩
    · obtain ⟨a', b', ha, hb, rfl⟩ := mem_zipWith_cases h
      exact ⟨a', b', List.mem_cons_of_mem a ha, List.mem_cons_of_mem b hb, rfl⟩

lemma zipWith_eq_self (p : String → ℚ → ℚ) :
    ∀ (names : List String) (row : List ℚ), row.length ≤ names.length →
      (∀ a ∈ names, ∀ x ∈ row, p a x = x) → List.zipWith p names row = row
  | _, [], _, _ => by simp
  | [], _ :: _, hlen, _ => by simp at hlen
  | a :: names, b :: row, hlen, h => by
    simp only [List.zipWith_cons_cons]
    rw [h a (List.mem_cons_self a names) b (List.mem_cons_self b row),
      zipWith_eq_self p names row (by simpa using hlen)
        (fun a' ha' x hx => h a' (List.mem_cons_of_mem a ha') x (List.mem_cons_of_mem b hx))]

lemma perturbEntry_zero (t : List String) (f : List ℚ) (name : String) :
    perturbEntry t f name 0 = 0 := by
  cases h : findIndex (fun s => decide (s = name)) t with
  | none => simp [perturbEntry, h]
  | some j => simp [perturbEntry, h, rint_zero]

lemma perturbEntry_nonneg (t : List String) (f : List ℚ) (name : String) (x : ℚ)
    (hx : 0 ≤ x) (hf : ∀ g ∈ f, 0 ≤ g) : 0 ≤ perturbEntry t f name x := by
  cases h : findIndex (fun s => decide (s = name)) t with
  | none => simpa [perturbEntry, h] using hx
  | some j =>
    have hr : (0 : ℤ) ≤ rint (x * f.getD j 0) :=
      rint_nonneg _ (mul_nonneg hx (getD_nonneg f hf j))
    simp only [perturbEntry, h]
    exact_mod_cast hr

lemma perturbEntry_one (t : List String) (f : List ℚ) (name : String) (x : ℚ)
    (hlen : t.length = f.length) (h1 : ∀ g ∈ f, g = 1) (hx : ∃ n : ℤ, x = (n : ℚ)) :
    perturbEntry t f name x = x := by
  cases h : findIndex (fun s => decide (s = name)) t with
  | none => simp [perturbEntry, h]
  | some j =>
    have hj : j < f.length := hlen ▸ findIndex_lt_length _ t j h
    have hfj : f.getD j 0 = 1 := by
      rw [List.getD_eq_getElem?_getD, List.getElem?_eq_getElem hj]
      exact h1 _ (List.getElem_mem hj)
    obtain ⟨n, rfl⟩ := hx
    simp only [perturbEntry, h, hfj, mul_one, rint_intCast]

/-- The entries of the perturbed matrix, position by position: at gene column
`c` the count is transformed through `perturbEntry` with the gene's label. -/
lemma entry_applyPerturb (adata : AnnData) (target : List String) (factor : List ℚ)
    (i c : Nat) (hwf : ∀ row ∈ adata.X, row.length = adata.var_names.length)
    (hc : c < adata.var_names.length) :
    entry (applyPerturb adata target factor) i c =
      perturbEntry target factor (adata.var_names.getD c "") (entry adata i c) := by
  simp only [entry, applyPerturb]
  rcases Nat.lt_or_ge i adata.X.length with hi | hi
  · have hmap :
        (adata.X.map
            (fun row => List.zipWith (perturbEntry target factor) adata.var_names row)).getD
          i [] =
          List.zipWith (perturbEntry target factor) adata.var_names (adata.X.getD i []) := by
      rw [List.getD_eq_getElem?_getD, List.getElem?_map, List.getElem?_eq_getElem hi,
        List.getD_eq_getElem?_getD, List.getElem?_eq_getElem hi]
      rfl
    have hmm : adata.X.getD i [] ∈ adata.X := by
      rw [List.getD_eq_getElem?_getD, List.getElem?_eq_getElem hi]
      exact List.getElem_mem hi
    have hcr : c < (adata.X.getD i []).length := by rw [hwf _ hmm]; exact hc
    rw [hmap, zipWith_getD _ _ _ _ hc hcr]
  · have hmap :
        (adata.X.map
            (fun row => List.zipWith (perturbEntry target factor) adata.var_names row)).getD
          i [] = [] := by
      rw [List.getD_eq_getElem?_getD, List.getElem?_map, List.getElem?_eq_none hi]
      rfl
    have horig : adata.X.getD i [] = ([] : List ℚ) := by
      rw [List.getD_eq_getElem?_getD, List.getElem?_eq_none hi]
      rfl
    rw [hmap, horig]
    simp [perturbEntry_zero]

/-- A validated call: when the four checks pass, `perturb_genes` reaches the
update step and returns according to `copy`. -/
lemma perturb_valid (adata : AnnData) (t : List String) (f : List ℚ) (copy : Bool)
    (hlen : t.length = f.length) (hpres : ∀ s ∈ t, s ∈ adata.var_names)
    (hfac : ∀ g ∈ f, 0 ≤ g) (hnd : t.Nodup) :
    perturb_genes adata (.list t) (.list f) copy =
      if copy then .ok adata (some (applyPerturb adata t f))
      else .ok (applyPerturb adata t f) none := by
  have h1 : t.filter (fun s => decide (s ∉ adata.var_names)) = [] :=
    List.filter_eq_nil_iff.mpr (fun a ha => by simpa using hpres a ha)
  have h2 : f.filter (fun g => decide (g < 0)) = [] :=
    List.filter_eq_nil_iff.mpr (fun g hg => by simpa using not_lt.mpr (hfac g hg))
  have h3 : t.dedup = t := List.dedup_eq_self.mpr hnd
  simp only [perturb_genes, normalizeTarget, normalizeFactor, h1, h2, h3, hlen]
  simp

/-- A scalar string `target` is the same call as the singleton list. -/
lemma perturb_scalar_target (adata : AnnData) (s : String) (fIn : FactorInput) (copy : Bool) :
    perturb_genes adata (.scalar s) fIn copy = perturb_genes adata (.list [s]) fIn copy := rfl

/-- A scalar float `factor` is the same call as the singleton list. -/
lemma perturb_scalar_float (adata : AnnData) (tIn : TargetInput) (q : ℚ) (copy : Bool) :
    perturb_genes adata tIn (.scalar (.pyFloat q)) copy =
      perturb_genes adata tIn (.list [q]) copy := rfl

/-- A scalar int `factor` escapes the `isinstance(factor, float)` normalization
and `len(factor)` raises a `TypeError`. -/
lemma perturb_scalar_int (adata : AnnData) (tIn : TargetInput) (n : ℤ) (copy : Bool) :
    perturb_genes adata tIn (.scalar (.pyInt n)) copy = .err .typeError adata := rfl

/-- `perturb_genes` on sequence inputs, written as its explicit guard chain. -/
lemma perturb_genes_list_eq (adata : AnnData) (t : List String) (f : List ℚ) (copy : Bool) :
    perturb_genes adata (.list t) (.list f) copy =
      if t.length ≠ f.length then .err (.lengthMismatch t.length f.length) adata
      else if t.filter (fun s => decide (s ∉ adata.var_names)) ≠ [] then
        .err (.unknownTarget (t.filter (fun s => decide (s ∉ adata.var_names)))
          (adata.var_names.take 3)) adata
      else if f.filter (fun g => decide (g < 0)) ≠ [] then .err .negativeFactor adata
      else if t.length ≠ t.dedup.length then .err .duplicateTarget adata
      else if copy then .ok adata (some (applyPerturb adata t f))
      else .ok (applyPerturb adata t f) none := rfl

/-- Any raised error carries the input matrix as the state: no mutation
precedes a raise in the source. -/
lemma perturb_err_state (adata : AnnData) (tIn : TargetInput) (fIn : FactorInput)
    (copy : Bool) (e : PerturbError) (s : AnnData) :
    perturb_genes adata tIn fIn copy = .err e s → s = adata := by
  intro h
  rcases fIn with x | f
  · rcases x with q | n
    · rw [perturb_scalar_float] at h
      simp only [perturb_genes, normalizeTarget, normalizeFactor] at h
      split_ifs at h <;> simp_all
    · rw [perturb_scalar_int] at h
      simp only [PResult.err.injEq] at h
      exact h.2.symm
  · simp only [perturb_genes, normalizeTarget, normalizeFactor] at h
    split_ifs at h <;> simp_all

lemma getD_mem_of_lt {α : Type} : ∀ (l : List α) (n : Nat) (d : α), n < l.length → l.getD n d ∈ l
  | a :: l, 0, _, _ => List.mem_cons_self a l
  | a :: l, n + 1, d, h => List.mem_cons_of_mem a (getD_mem_of_lt l n d (Nat.lt_of_succ_lt_succ h))
  | [], n, _, h => absurd h (Nat.not_lt_zero n)

lemma getD_eq_default_of_le {α : Type} :
    ∀ (l : List α) (n : Nat) (d : α), l.length ≤ n → l.getD n d = d
  | [], _, _, _ => rfl
  | a :: l, n + 1, d, h => getD_eq_default_of_le l n d (Nat.le_of_succ_le_succ h)
  | _ :: _, 0, _, h => absurd h (by simp)

lemma nested_getD_nonneg (M : List (List ℚ)) (h : ∀ row ∈ M, ∀ x ∈ row, 0 ≤ x) (i c : Nat) :
    0 ≤ (M.getD i []).getD c 0 := by
  rcases Nat.lt_or_ge i M.length with hi | hi
  · have hrow : M.getD i [] ∈ M := getD_mem_of_lt M i [] hi
    rcases Nat.lt_or_ge c (M.getD i []).length with hcc | hcc
    · exact h _ hrow _ (getD_mem_of_lt _ c 0 hcc)
    · rw [getD_eq_default_of_le _ c 0 hcc]
  · rw [getD_eq_default_of_le M i [] hi]
    simp [List.getD]

lemma map_eq_self {α : Type} (l : List α) (g : α → α) (h : ∀ x ∈ l, g x = x) : l.map g = l := by
  induction l with
  | nil => rfl
  | cons a l ih =>
    simp only [List.map_cons]
    rw [h a (List.mem_cons_self a l), ih (fun x hx => h x (List.mem_cons_of_mem a hx))]

/-! ### Claims -/

/-- C1: for every valid perturbation request (targets present among the
column labels, no duplicates, non-negative factors, equal lengths), the call
succeeds and every entry of a targeted column of the resulting matrix is the
original entry times that column's positionally aligned factor, rounded to
the nearest integer with ties to even (numpy's convention); in particular a
count of 13 scaled by 1/2 yields 6. -/
theorem perturb_scales_targeted_columns
    (adata : AnnData) (target : List String) (factor : List ℚ) (copy : Bool)
    (hwf : ∀ row ∈ adata.X, row.length = adata.var_names.length)
    (hlen : target.length = factor.length)
    (hpres : ∀ s ∈ target, s ∈ adata.var_names)
    (hfac : ∀ g ∈ factor, 0 ≤ g)
    (hnd : target.Nodup) :
    perturb_genes adata (.list target) (.list factor) copy =
      (if copy then .ok adata (some (applyPerturb adata target factor))
       else .ok (applyPerturb adata target factor) none) ∧
    (∀ i c j, ∀ hc : c < adata.var_names.length, ∀ hj : j < target.length,
        ∀ hj' : j < factor.length,
        adata.var_names.getD c "" = target.get ⟨j, hj⟩ →
        entry (applyPerturb adata target factor) i c =
          ((rint (entry adata i c * factor.get ⟨j, hj'⟩) : ℤ) : ℚ)) ∧
    rint (13 * (1 / 2)) = 6 := by
  refine ⟨perturb_valid adata target factor copy hlen hpres hfac hnd, ?_, by norm_num [rint]⟩
  intro i c j hc hj hj' hname
  rw [entry_applyPerturb adata target factor i c hwf hc, hname]
  have hfi : findIndex (fun s => decide (s = target.get ⟨j, hj⟩)) target = some j := by
    have h := findIndex_nodup target j hnd hj
    have hgd : target.getD j "" = target.get ⟨j, hj⟩ := by
      rw [List.getD_eq_getElem?_getD, List.getElem?_eq_getElem hj]
      rfl
    rwa [hgd] at h
  have hfd : factor.getD j 0 = factor.get ⟨j, hj'⟩ := by
    rw [List.getD_eq_getElem?_getD, List.getElem?_eq_getElem hj']
    rfl
  simp only [perturbEntry, hfi, hfd]

/-- C1 witness: on the spec's example matrix, halving the `G2` column turns
the count 13 into 6. -/
theorem perturb_scales_targeted_columns_witness :
    entry (applyPerturb sampleM ["G1", "G2"] [2, 1 / 2]) 0 1 = 6 := by
  have h := (perturb_scales_targeted_columns sampleM ["G1", "G2"] [2, 1 / 2] false
      (by decide) (by decide) (by decide) (by norm_num) (by decide)).2.1
      0 1 1 (by decide) (by decide) (by decide) (by decide)
  rw [h]
  norm_num [rint, entry, sampleM]

/-- C2: with `copy=True` the caller's matrix is left unchanged and the
perturbed matrix is returned; with `copy=False` the caller's matrix ends up
mutated and `None` is returned. -/
theorem perturb_copy_semantics
    (adata : AnnData) (target : List String) (factor : List ℚ)
    (hlen : target.length = factor.length)
    (hpres : ∀ s ∈ target, s ∈ adata.var_names)
    (hfac : ∀ g ∈ factor, 0 ≤ g)
    (hnd : target.Nodup) :
    perturb_genes adata (.list target) (.list factor) true =
      .ok adata (some (applyPerturb adata target factor)) ∧
    perturb_genes adata (.list target) (.list factor) false =
      .ok (applyPerturb adata target factor) none := by
  constructor
  · rw [perturb_valid adata target factor true hlen hpres hfac hnd]
    simp
  · rw [perturb_valid adata target factor false hlen hpres hfac hnd]
    simp

/-- C2 witness: doubling `G1` on the example matrix in copy mode leaves the
caller's matrix as the state and returns the perturbed copy. -/
theorem perturb_copy_semantics_witness :
    perturb_genes sampleM (.list ["G1"]) (.list [(2 : ℚ)]) true =
      .ok sampleM (some (applyPerturb sampleM ["G1"] [2])) :=
  (perturb_copy_semantics sampleM ["G1"] [2] (by decide) (by decide) (by norm_num)
    (by decide)).1

/-- C3: for every valid request, entries in columns whose gene label is not
among the targets are unchanged in the resulting matrix. -/
theorem perturb_preserves_other_columns
    (adata : AnnData) (target : List String) (factor : List ℚ) (copy : Bool)
    (hwf : ∀ row ∈ adata.X, row.length = adata.var_names.length)
    (hlen : target.length = factor.length)
    (hpres : ∀ s ∈ target, s ∈ adata.var_names)
    (hfac : ∀ g ∈ factor, 0 ≤ g)
    (hnd : target.Nodup) :
    perturb_genes adata (.list target) (.list factor) copy =
      (if copy then .ok adata (some (applyPerturb adata target factor))
       else .ok (applyPerturb adata target factor) none) ∧
    (∀ i c, c < adata.var_names.length → adata.var_names.getD c "" ∉ target →
      entry (applyPerturb adata target factor) i c = entry adata i c) := by
  refine ⟨perturb_valid adata target factor copy hlen hpres hfac hnd, ?_⟩
  intro i c hc hni
  rw [entry_applyPerturb adata target factor i c hwf hc]
  simp only [perturbEntry, findIndex_not_mem target _ hni]

/-- C3 witness: perturbing only `G1` on the example matrix leaves the `G2`
column entry at cell 0 untouched. -/
theorem perturb_preserves_other_columns_witness :
    entry (applyPerturb sampleM ["G1"] [2]) 0 1 = entry sampleM 0 1 :=
  (perturb_preserves_other_columns sampleM ["G1"] [2] false (by decide) (by decide)
      (by decide) (by norm_num) (by decide)).2 0 1 (by decide) (by decide)

/-- C4: whenever any of the four validation checks fails the call raises, and
whenever a call raises (any error, any copy flag, any input form) the caller's
matrix is the unmodified input: validation completes before mutation begins. -/
theorem perturb_validation_atomic (adata : AnnData) (copy : Bool) :
    (∀ (tIn : TargetInput) (fIn : FactorInput) (e : PerturbError) (s : AnnData),
        perturb_genes adata tIn fIn copy = .err e s → s = adata) ∧
    (∀ (t : List String) (f : List ℚ),
        ¬(t.length = f.length ∧ (∀ s ∈ t, s ∈ adata.var_names) ∧
            (∀ g ∈ f, 0 ≤ g) ∧ t.Nodup) →
        ∃ e, perturb_genes adata (.list t) (.list f) copy = .err e adata) := by
  constructor
  · exact fun tIn fIn e s h => perturb_err_state adata tIn fIn copy e s h
  · intro t f hfail
    by_cases h1 : t.length = f.length
    · by_cases h2 : ∀ s ∈ t, s ∈ adata.var_names
      · have e1 : t.filter (fun s => decide (s ∉ adata.var_names)) = [] :=
          List.filter_eq_nil_iff.mpr (fun a ha => by simpa using h2 a ha)
        by_cases h3 : ∀ g ∈ f, 0 ≤ g
        · have h4 : ¬t.Nodup := fun hnd => hfail ⟨h1, h2, h3, hnd⟩
          have e2 : f.filter (fun g => decide (g < 0)) = [] :=
            List.filter_eq_nil_iff.mpr (fun g hg => by simpa using not_lt.mpr (h3 g hg))
          have e3 : t.length ≠ t.dedup.length := fun hdl =>
            h4 (List.dedup_eq_self.mp ((t.dedup_sublist).eq_of_length hdl.symm))
          refine ⟨.duplicateTarget, ?_⟩
          rw [perturb_genes_list_eq, if_neg (not_not_intro h1), e1, e2,
            if_neg (not_not_intro rfl), if_neg (not_not_intro rfl), if_pos e3]
        · obtain ⟨g, hg, hg0⟩ : ∃ g ∈ f, g < 0 := by
            push_neg at h3
            exact h3
          have e2 : f.filter (fun g => decide (g < 0)) ≠ [] :=
            List.ne_nil_of_mem (List.mem_filter.mpr ⟨hg, by simpa using hg0⟩)
          refine ⟨.negativeFactor, ?_⟩
          rw [perturb_genes_list_eq, if_neg (not_not_intro h1), e1,
            if_neg (not_not_intro rfl), if_pos e2]
      · have e1 : t.filter (fun s => decide (s ∉ adata.var_names)) ≠ [] := by
          push_neg at h2
          obtain ⟨s0, hs0, hs0n⟩ := h2
          exact List.ne_nil_of_mem (List.mem_filter.mpr ⟨hs0, by simpa using hs0n⟩)
        refine ⟨.unknownTarget (t.filter (fun s => decide (s ∉ adata.var_names)))
            (adata.var_names.take 3), ?_⟩
        rw [perturb_genes_list_eq, if_neg (not_not_intro h1), if_pos e1]
    · exact ⟨.lengthMismatch t.length f.length,
        by rw [perturb_genes_list_eq, if_pos h1]⟩

/-- C4 witness: a length mismatch (2 targets, 1 factor) raises and leaves the
example matrix as it was. -/
theorem perturb_validation_atomic_witness :
    ∃ e, perturb_genes sampleM (.list ["G1", "G2"]) (.list [(2 : ℚ)]) false =
      .err e sampleM :=
  (perturb_validation_atomic sampleM false).2 ["G1", "G2"] [2] (by simp)

/-- C5 counterexample: a bare integer scalar factor is a "non-negative number
of a numeric kind", yet the call does not behave as if the length-1 sequence
had been passed: `isinstance(factor, float)` is false for an `int`, so the
scalar is left unwrapped and `len(factor)` raises a `TypeError`. -/
theorem scalar_int_factor_not_normalized :
    perturb_genes sampleM (.scalar "G1") (.scalar (.pyInt 2)) false ≠
      perturb_genes sampleM (.scalar "G1") (.list [2]) false := by
  rw [perturb_scalar_int, perturb_scalar_target,
    perturb_valid sampleM ["G1"] [2] false (by decide) (by decide) (by norm_num) (by decide)]
  simp

/-- C5 amended: a single string passed as `targets`, or a single float passed
as `factors`, is normalized into a length-1 sequence and the call then behaves
exactly as if that sequence had been passed; a scalar integer factor is not
normalized and the call fails with a type error, leaving the matrix unchanged. -/
theorem scalar_normalization_amended (adata : AnnData) (copy : Bool) :
    (∀ (s : String) (fIn : FactorInput),
        perturb_genes adata (.scalar s) fIn copy =
          perturb_genes adata (.list [s]) fIn copy) ∧
    (∀ (tIn : TargetInput) (q : ℚ),
        perturb_genes adata tIn (.scalar (.pyFloat q)) copy =
          perturb_genes adata tIn (.list [q]) copy) ∧
    (∀ (tIn : TargetInput) (n : ℤ),
        perturb_genes adata tIn (.scalar (.pyInt n)) copy = .err .typeError adata) :=
  ⟨fun s fIn => perturb_scalar_target adata s fIn copy,
   fun tIn q => perturb_scalar_float adata tIn q copy,
   fun tIn n => perturb_scalar_int adata tIn n copy⟩

/-- C6: when the earlier checks pass (lengths equal, targets present), the
call fails with the negative-factor error exactly when some factor is
strictly negative; a factor of zero is accepted: the call succeeds and the
targeted column is zeroed out (full knock-down). -/
theorem negative_factor_error_iff (adata : AnnData) (t : List String) (f : List ℚ)
    (copy : Bool) (hlen : t.length = f.length)
    (hpres : ∀ s ∈ t, s ∈ adata.var_names) :
    (perturb_genes adata (.list t) (.list f) copy = .err .negativeFactor adata ↔
      ∃ g ∈ f, g < 0) ∧
    (∀ (hnd : t.Nodup) (hfac : ∀ g ∈ f, 0 ≤ g)
        (hwf : ∀ row ∈ adata.X, row.length = adata.var_names.length)
        (j : Nat), j < t.length → f.getD j 0 = 0 →
        (∃ st ret, perturb_genes adata (.list t) (.list f) copy = .ok st ret) ∧
        ∀ i c, c < adata.var_names.length →
          adata.var_names.getD c "" = t.getD j "" →
          entry (applyPerturb adata t f) i c = 0) := by
  have e1 : t.filter (fun s => decide (s ∉ adata.var_names)) = [] :=
    List.filter_eq_nil_iff.mpr (fun a ha => by simpa using hpres a ha)
  constructor
  · constructor
    · intro h
      by_contra hno
      have hfac : ∀ g ∈ f, 0 ≤ g := by
        intro g hg
        by_contra hg0
        exact hno ⟨g, hg, not_le.mp hg0⟩
      have e2 : f.filter (fun g => decide (g < 0)) = [] :=
        List.filter_eq_nil_iff.mpr (fun g hg => by simpa using not_lt.mpr (hfac g hg))
      rw [perturb_genes_list_eq, if_neg (not_not_intro hlen), e1, e2,
        if_neg (not_not_intro rfl), if_neg (not_not_intro rfl)] at h
      split_ifs at h <;> simp_all
    · intro hneg
      obtain ⟨g, hg, hg0⟩ := hneg
      have e2 : f.filter (fun g => decide (g < 0)) ≠ [] :=
        List.ne_nil_of_mem (List.mem_filter.mpr ⟨hg, by simpa using hg0⟩)
      rw [perturb_genes_list_eq, if_neg (not_not_intro hlen), e1,
        if_neg (not_not_intro rfl), if_pos e2]
  · intro hnd hfac hwf j hj hfj
    constructor
    · rcases copy
      · exact ⟨applyPerturb adata t f, none, by
          rw [perturb_valid adata t f false hlen hpres hfac hnd]
          simp⟩
      · exact ⟨adata, some (applyPerturb adata t f), by
          rw [perturb_valid adata t f true hlen hpres hfac hnd]
          simp⟩
    · intro i c hc hname
      rw [entry_applyPerturb adata t f i c hwf hc, hname]
      have hfi : findIndex (fun s => decide (s = t.getD j "")) t = some j :=
        findIndex_nodup t j hnd hj
      simp only [perturbEntry, hfi, hfj, mul_zero, rint_zero, Int.cast_zero]

/-- C6 witness: a single factor of −1 on an existing gene raises the
negative-factor error. -/
theorem negative_factor_error_iff_witness :
    perturb_genes sampleM (.list ["G1"]) (.list [-1]) false =
      .err .negativeFactor sampleM :=
  ((negative_factor_error_iff sampleM ["G1"] [-1] false (by decide) (by decide)).1).mpr
    ⟨-1, by simp, by norm_num⟩

/-- C7: when the lengths match but some target is absent from the column
labels, the call fails with the not-found error whose payload is exactly the
list of offending identifiers together with the first three valid column
labels; every absent target appears in that payload. -/
theorem unknown_target_error_details (adata : AnnData) (t : List String) (f : List ℚ)
    (copy : Bool) (hlen : t.length = f.length)
    (habs : ∃ s ∈ t, s ∉ adata.var_names) :
    perturb_genes adata (.list t) (.list f) copy =
      .err (.unknownTarget (t.filter (fun s => decide (s ∉ adata.var_names)))
        (adata.var_names.take 3)) adata ∧
    (∀ s ∈ t, s ∉ adata.var_names →
      s ∈ t.filter (fun s => decide (s ∉ adata.var_names))) := by
  constructor
  · obtain ⟨s0, hs0, hs0n⟩ := habs
    have e1 : t.filter (fun s => decide (s ∉ adata.var_names)) ≠ [] :=
      List.ne_nil_of_mem (List.mem_filter.mpr ⟨hs0, by simpa using hs0n⟩)
    rw [perturb_genes_list_eq, if_neg (not_not_intro hlen), if_pos e1]
  · intro s hs hsn
    exact List.mem_filter.mpr ⟨hs, by simpa using hsn⟩

/-- C7 witness: requesting the unknown gene `GX` on the example matrix yields
the not-found error carrying `["GX"]` and the valid names `["G1", "G2"]`. -/
theorem unknown_target_error_details_witness :
    perturb_genes sampleM (.list ["GX"]) (.list [5]) false =
      .err (.unknownTarget ["GX"] ["G1", "G2"]) sampleM := by
  have h := (unknown_target_error_details sampleM ["GX"] [5] false (by decide)
      ⟨"GX", by simp, by decide⟩).1
  simpa [sampleM] using h

/-- The first failing check in the spec's fixed order (length mismatch,
unknown target, negative factor, duplicate target), if any. -/
def firstViolation (names : List String) (t : List String) (f : List ℚ) :
    Option PerturbError :=
  if t.length ≠ f.length then some (.lengthMismatch t.length f.length)
  else if t.filter (fun s => decide (s ∉ names)) ≠ [] then
    some (.unknownTarget (t.filter (fun s => decide (s ∉ names))) (names.take 3))
  else if f.filter (fun g => decide (g < 0)) ≠ [] then some .negativeFactor
  else if t.length ≠ t.dedup.length then some .duplicateTarget
  else none

/-- C8: the four validation checks run in the fixed order length-mismatch,
unknown-target, negative-factor, duplicate-target: the error raised is that
of the earliest violated check, and when none is violated the call succeeds. -/
theorem validation_order (adata : AnnData) (t : List String) (f : List ℚ) (copy : Bool) :
    (∀ e, firstViolation adata.var_names t f = some e →
        perturb_genes adata (.list t) (.list f) copy = .err e adata) ∧
    (firstViolation adata.var_names t f = none →
        perturb_genes adata (.list t) (.list f) copy =
          (if copy then .ok adata (some (applyPerturb adata t f))
           else .ok (applyPerturb adata t f) none)) := by
  constructor
  · intro e he
    rw [perturb_genes_list_eq]
    unfold firstViolation at he
    split_ifs at he ⊢ <;> simp_all
  · intro he
    rw [perturb_genes_list_eq]
    unfold firstViolation at he
    split_ifs at he ⊢ <;> simp_all

/-- C8 witness: a request with both a duplicate target and a negative factor
reports the negative-factor error, the earlier check in the order. -/
theorem validation_order_witness :
    perturb_genes sampleM (.list ["G1", "G1"]) (.list [-1, 2]) false =
      .err .negativeFactor sampleM := by
  refine (validation_order sampleM ["G1", "G1"] [-1, 2] false).1 .negativeFactor ?_
  have e2 : List.filter (fun g => decide (g < 0)) [(-1 : ℚ), 2] ≠ [] := by
    refine List.ne_nil_of_mem (List.mem_filter.mpr ⟨List.mem_cons_self (-1) [2], ?_⟩)
    norm_num
  have e0 : ¬(["G1", "G1"].length ≠ [(-1 : ℚ), 2].length) := by norm_num
  have e1 : ¬(List.filter (fun s => decide (s ∉ sampleM.var_names)) ["G1", "G1"] ≠ []) := by
    simp [sampleM]
  rw [firstViolation, if_neg e0, if_neg e1, if_pos e2]

/-- C9: non-negativity of counts is an invariant: on a matrix with only
non-negative entries, a valid request (all factors non-negative) succeeds and
produces a matrix with only non-negative entries. -/
theorem perturb_preserves_nonnegativity
    (adata : AnnData) (t : List String) (f : List ℚ) (copy : Bool)
    (hlen : t.length = f.length) (hpres : ∀ s ∈ t, s ∈ adata.var_names)
    (hfac : ∀ g ∈ f, 0 ≤ g) (hnd : t.Nodup)
    (hX : ∀ row ∈ adata.X, ∀ x ∈ row, 0 ≤ x) :
    perturb_genes adata (.list t) (.list f) copy =
      (if copy then .ok adata (some (applyPerturb adata t f))
       else .ok (applyPerturb adata t f) none) ∧
    (∀ i c, 0 ≤ entry (applyPerturb adata t f) i c) := by
  refine ⟨perturb_valid adata t f copy hlen hpres hfac hnd, ?_⟩
  have hX' : ∀ row ∈ (applyPerturb adata t f).X, ∀ x ∈ row, 0 ≤ x := by
    intro row hrow x hx
    simp only [applyPerturb, List.mem_map] at hrow
    obtain ⟨row0, hrow0, rfl⟩ := hrow
    obtain ⟨a, b, _, hb, rfl⟩ := mem_zipWith_cases hx
    exact perturbEntry_nonneg t f a b (hX row0 hrow0 b hb) hfac
  intro i c
  exact nested_getD_nonneg _ hX' i c

/-- C9 witness: after doubling `G1` on the example matrix, the entry at cell
0, gene 0 is non-negative. -/
theorem perturb_preserves_nonnegativity_witness :
    0 ≤ entry (applyPerturb sampleM ["G1"] [2]) 0 0 :=
  (perturb_preserves_nonnegativity sampleM ["G1"] [2] false (by decide) (by decide)
      (by norm_num) (by decide) (by norm_num [sampleM])).2 0 0

/-- C10: a factor of 1 is an identity: on a matrix of integer-valued raw
counts, perturbing any valid target set with all factors equal to 1 returns
the matrix unchanged (round(x * 1) = x for integer x). -/
theorem factor_one_identity
    (adata : AnnData) (t : List String) (f : List ℚ) (copy : Bool)
    (hwf : ∀ row ∈ adata.X, row.length = adata.var_names.length)
    (hlen : t.length = f.length) (hpres : ∀ s ∈ t, s ∈ adata.var_names)
    (hnd : t.Nodup)
    (hint : ∀ row ∈ adata.X, ∀ x ∈ row, ∃ n : ℤ, x = (n : ℚ))
    (h1 : ∀ g ∈ f, g = 1) :
    perturb_genes adata (.list t) (.list f) copy =
      (if copy then .ok adata (some adata) else .ok adata none) := by
  have hfac : ∀ g ∈ f, 0 ≤ g := fun g hg => (h1 g hg) ▸ zero_le_one
  have happ : applyPerturb adata t f = adata := by
    have hX : adata.X.map
        (fun row => List.zipWith (perturbEntry t f) adata.var_names row) = adata.X := by
      refine map_eq_self adata.X _ (fun row hrow => ?_)
      refine zipWith_eq_self (perturbEntry t f) adata.var_names row (le_of_eq (hwf row hrow))
        (fun a _ x hx => ?_)
      exact perturbEntry_one t f a x hlen h1 (hint row hrow x hx)
    unfold applyPerturb
    rw [hX]
  rw [perturb_valid adata t f copy hlen hpres hfac hnd, happ]

/-- C10 witness: perturbing both genes of the example matrix with factors 1
returns it unchanged. -/
theorem factor_one_identity_witness :
    perturb_genes sampleM (.list ["G1", "G2"]) (.list [1, 1]) false =
      .ok sampleM none := by
  have h := factor_one_identity sampleM ["G1", "G2"] [1, 1] false (by decide) (by decide)
    (by decide) (by decide) ?hint (by norm_num)
  · rw [h]
    simp
  case hint =>
    intro row hrow x hx
    simp only [sampleM] at hrow
    rcases List.mem_cons.mp hrow with rfl | hrow
    · rcases List.mem_cons.mp hx with rfl | hx
      · exact ⟨1, by norm_num⟩
      · rcases List.mem_cons.mp hx with rfl | hx
        · exact ⟨13, by norm_num⟩
        · simp at hx
    · rcases List.mem_cons.mp hrow with rfl | hrow
      · rcases List.mem_cons.mp hx with rfl | hx
        · exact ⟨0, by norm_num⟩
        · rcases List.mem_cons.mp hx with rfl | hx
          · exact ⟨26, by norm_num⟩
          · simp at hx
      · simp at hrow

example : rint (13 * (1 / 2)) = 6 := by norm_num [rint]
example : rint (1 / 2) = 0 := by norm_num [rint]
example : rint (3 / 2) = 2 := by norm_num [rint]
example : rint 3 = 3 := by norm_num [rint]
example :
    perturb_genes sampleM (.list ["G1", "G2"]) (.list [2, 1 / 2]) false =
      .ok { var_names := ["G1", "G2"], X := [[2, 6], [0, 13]] } none := by
  simp [perturb_genes, normalizeTarget, normalizeFactor, applyPerturb, perturbEntry,
    findIndex, sampleM]
  norm_num [rint]
